import Mathlib

/-!
Verification of the harpocrates secret-store core: a shallow embedding of the
file-backed secret store (`secret/file`), the secretbox crypter, the counter
stores, the rate limiter, and the session handler, together with theorems
settling the specification claims about them.

Paths are modelled at the character level, mirroring Go's lexical
`path/filepath` functions (`Clean`, `Join`, `Dir`) and `strings.HasPrefix`.
The filesystem is modelled as a finite map from file path to file content plus
a list of existing directories; `ioutil.TempFile` + `os.Rename` sequences are
modelled by their net effect (an atomic insert), and randomness (nonces) is
passed in as an explicit argument.
-/

deriving instance DecidableEq for Except

namespace Harpocrates

/-! ## Go `path/filepath` lexical path functions -/

/-- Split a character list on `/`, keeping empty components
(like `strings.Split(s, "/")`). -/
def splitSlash : List Char → List (List Char)
  | [] => [[]]
  | c :: cs =>
    match splitSlash cs with
    | r :: rs => if c = '/' then [] :: r :: rs else (c :: r) :: rs
    | [] => [[]]

/-- The component-processing loop of Go's `filepath.Clean`: drop empty and `.`
components; `..` pops the previous component, is dropped at the root of a
rooted path, and is kept in a relative path with nothing left to pop.
`acc` holds already-emitted components in reverse order. -/
def cleanComps (rooted : Bool) : List (List Char) → List (List Char) → List (List Char)
  | acc, [] => acc.reverse
  | acc, c :: cs =>
    if c = [] ∨ c = ['.'] then cleanComps rooted acc cs
    else if c = ['.', '.'] then
      match acc with
      | a :: as =>
        if a = ['.', '.'] then cleanComps rooted (['.', '.'] :: a :: as) cs
        else cleanComps rooted as cs
      | [] =>
        if rooted then cleanComps rooted [] cs
        else cleanComps rooted [['.', '.']] cs
    else cleanComps rooted (c :: acc) cs

/-- Interleave `/` between components. -/
def joinComps : List (List Char) → List Char
  | [] => []
  | [c] => c
  | c :: cs => c ++ '/' :: joinComps cs

/-- Go `filepath.Clean` (unix rules). -/
def filepathClean (path : String) : String :=
  match h : path.data with
  | [] => "."
  | c :: cs =>
    let rooted := c = '/'
    let comps := cleanComps rooted [] (splitSlash (c :: cs))
    if rooted then ⟨'/' :: joinComps comps⟩
    else if comps = [] then "." else ⟨joinComps comps⟩

/-- Go `filepath.Join` restricted to two elements: empty elements are dropped,
the rest joined with `/` and cleaned. -/
def filepathJoin (a b : String) : String :=
  if a = "" ∧ b = "" then ""
  else if a = "" then filepathClean b
  else if b = "" then filepathClean a
  else filepathClean (a ++ "/" ++ b)

/-- Go `filepath.Dir`: everything up to (and including) the final `/`, cleaned;
`.` if there is no `/`. -/
def filepathDir (p : String) : String :=
  let dirPart := (p.data.reverse.dropWhile (fun c => c ≠ '/')).reverse
  if dirPart = [] then "." else filepathClean ⟨dirPart⟩

/-- Go `strings.HasPrefix base-as-second-arg`: `hasPre base s` holds iff `s`
starts with the string `base`. -/
def hasPre (base s : String) : Bool := List.isPrefixOf base.data s.data

/-- The slash-separated components of an entry name (used to state that a name
contains a `..` component). -/
def nameComps (s : String) : List String := (splitSlash s.data).map (fun l => ⟨l⟩)

/-- Predicate `underDir base p` holds iff path `p` actually lies at or beneath directory
`base` (directory containment, as opposed to mere string-prefixing). -/
def underDir (base p : String) : Bool := p = base || hasPre (base ++ "/") p

/-! ## The secretbox crypter (`secret/secretbox`)

`secretbox.Seal`/`Open` are modelled as a perfect authenticated encryption
scheme: a sealed box remembers the key, nonce and message it was built from,
and opens exactly under that key and nonce. The `proto.Marshal`/`Unmarshal`
round-trip of the `Entry` message is modelled as the identity. -/

inductive SealedBox
  | sealed (key : Nat) (nonce : Nat) (msg : String)
deriving DecidableEq

/-- Model of `secretbox.Seal(nil, msg, nonce, key)`. -/
def secretboxSeal (msg : String) (nonce key : Nat) : SealedBox := .sealed key nonce msg

/-- Model of `secretbox.Open(nil, box, nonce, key)`: succeeds exactly for the sealing
key and nonce. -/
def secretboxOpen (box : SealedBox) (nonce key : Nat) : Option String :=
  match box with
  | .sealed k n m => if k = key ∧ n = nonce then some m else none

/-- The on-disk `Entry` protobuf message: `{ encrypted_content, nonce }`. -/
structure EntryPB where
  encryptedContent : SealedBox
  nonce : Nat
deriving DecidableEq

inductive StoreError
  | missingEntry   -- getEntryFilename: "missing entry" (empty name)
  | invalidEntry   -- getEntryFilename: "invalid entry" (escapes baseDir)
  | noEntry        -- secret.ErrNoEntry
  | decryptFailed  -- crypter.Decrypt failure
  | readdirFailed  -- Delete: could not open/read a directory while cleaning up
  | outOfFuel      -- modelling artifact: directory-cleanup iteration bound hit
deriving DecidableEq

/-- Model of `crypter.Encrypt(entryName, content)` with the fresh random `nonce` passed
in explicitly. Note the entry name is not used. -/
def crypterEncrypt (key nonce : Nat) (entryName content : String) : EntryPB :=
  { encryptedContent := secretboxSeal content nonce key, nonce := nonce }

/-- Model of `crypter.Decrypt(entryName, ciphertext)`. Note the entry name is not used. -/
def crypterDecrypt (key : Nat) (entryName : String) (e : EntryPB) : Except StoreError String :=
  match secretboxOpen e.encryptedContent e.nonce key with
  | some m => .ok m
  | none => .error .decryptFailed

/-! ## The filesystem model -/

structure FS where
  files : List (String × EntryPB)
  dirs : List String
deriving DecidableEq

def lookupFile : List (String × EntryPB) → String → Option EntryPB
  | [], _ => none
  | (k, v) :: rest, key => if k = key then some v else lookupFile rest key

def eraseFile : List (String × EntryPB) → String → List (String × EntryPB)
  | [], _ => []
  | (k, v) :: rest, key =>
    if k = key then eraseFile rest key else (k, v) :: eraseFile rest key

def insertFile (fs : FS) (p : String) (e : EntryPB) : FS :=
  { fs with files := (p, e) :: eraseFile fs.files p }

def eraseDir (fs : FS) (d : String) : FS :=
  { fs with dirs := fs.dirs.filter (fun d2 => decide (d2 ≠ d)) }

/-- The chain of a directory and its ancestors, following `filepathDir`
upward until it reaches a fixed point (`/` or `.`). -/
def dirChain : Nat → String → List String
  | 0, _ => []
  | n+1, d => d :: (if filepathDir d = d then [] else dirChain n (filepathDir d))

/-- Model of `os.MkdirAll(d, ...)`: ensure `d` and all its ancestors exist. -/
def mkdirAll (fs : FS) (d : String) : FS :=
  { fs with dirs := dirChain (d.length + 2) d ++ fs.dirs }

/-- Test that `Readdir(1)` returns `io.EOF`: the directory has no child file and no
child directory. -/
def dirIsEmpty (fs : FS) (d : String) : Bool :=
  fs.files.all (fun kv => decide (filepathDir kv.1 ≠ d)) &&
  fs.dirs.all (fun d2 => decide (d2 = d) || decide (filepathDir d2 ≠ d))

/-! ## The file store (`secret/file`) -/

structure Store where
  baseDir : String
  extension : String
deriving DecidableEq

/-- Model of `file.NewStore(baseDir, extension, crypter)`. -/
def NewStore (baseDir extension : String) : Store :=
  let ext := if extension ≠ "" ∧ hasPre "." extension = false then "." ++ extension else extension
  { baseDir := filepathClean baseDir, extension := ext }

/-- Model of `store.getEntryFilename`. -/
def getEntryFilename (s : Store) (entry : String) : Except StoreError String :=
  if entry = "" then .error .missingEntry
  else
    let entryFilename := filepathJoin s.baseDir (entry ++ s.extension)
    if hasPre s.baseDir entryFilename then .ok entryFilename
    else .error .invalidEntry

/-- Model of `store.Get`. -/
def storeGet (s : Store) (key : Nat) (fs : FS) (entry : String) : Except StoreError String :=
  match getEntryFilename s entry with
  | .error e => .error e
  | .ok fn =>
    match lookupFile fs.files fn with
    | none => .error .noEntry
    | some e => crypterDecrypt key entry e

/-- Model of `store.Put`, with the crypter's fresh nonce passed in explicitly. The
temp-file-write-then-rename sequence is modelled by its net effect. -/
def storePut (s : Store) (key nonce : Nat) (fs : FS) (entry content : String) :
    Except StoreError FS :=
  let ct := crypterEncrypt key nonce entry content
  match getEntryFilename s entry with
  | .error e => .error e
  | .ok fn => .ok (insertFile (mkdirAll fs (filepathDir fn)) fn ct)

/-- The `Clean up newly-empty directories` loop of `store.Delete`:
`for entryDir := Dir(entryFilename); HasPrefix(entryDir, baseDir); entryDir = Dir(entryDir)`.
The Go loop's iteration count is bounded by the depth of the starting path;
the explicit fuel argument makes that bound a parameter. -/
def cleanupDirs (baseDir : String) : Nat → String → FS → Except StoreError FS
  | 0, _, _ => .error .outOfFuel
  | fuel+1, dir, fs =>
    if hasPre baseDir dir then
      if dir ∈ fs.dirs then
        if dirIsEmpty fs dir then cleanupDirs baseDir fuel (filepathDir dir) (eraseDir fs dir)
        else .ok fs
      else .error .readdirFailed
    else .ok fs

/-- Model of `store.Delete`. -/
def storeDelete (s : Store) (fs : FS) (entry : String) : Except StoreError FS :=
  match getEntryFilename s entry with
  | .error e => .error e
  | .ok fn =>
    match lookupFile fs.files fn with
    | none => .error .noEntry
    | some _ =>
      cleanupDirs s.baseDir ((filepathDir fn).length + 3) (filepathDir fn)
        { fs with files := eraseFile fs.files fn }

/-- Predicate `isWalkChain baseDir d chain` holds iff `chain` is exactly the sequence of
directories the cleanup loop of `store.Delete` visits starting from `d`:
consecutive `filepathDir` steps, each satisfying the loop's
`strings.HasPrefix` guard, with the next step after the last failing it. -/
def isWalkChain (baseDir : String) : String → List String → Bool
  | d, [] => !(hasPre baseDir d)
  | d, c :: cs => decide (c = d) && hasPre baseDir d && isWalkChain baseDir (filepathDir d) cs

/-! ## The counter stores

Two revisions exist: `counter.Store` (protobuf-backed, roll-forward with
rollback on write failure) and `session.CounterStore` (JSON-backed, file
written before memory). The crash-safe temp-file-write-then-rename is
modelled by a boolean `writeOk` oracle: the file phase either fully succeeds
or fails. -/

abbrev CtrMap := List (String × Nat)

def ctrLookup : CtrMap → String → Option Nat
  | [], _ => none
  | (k, v) :: rest, key => if k = key then some v else ctrLookup rest key

def ctrErase : CtrMap → String → CtrMap
  | [], _ => []
  | (k, v) :: rest, key => if k = key then ctrErase rest key else (k, v) :: ctrErase rest key

/-- Model of `Store.Get`: Go map lookup with zero value 0. -/
def ctrGet (m : CtrMap) (handle : String) : Nat := (ctrLookup m handle).getD 0

/-- The `setVal` closure of `counter.Store.Set`: value 0 deletes the entry. -/
def ctrSetVal (m : CtrMap) (handle : String) (val : Nat) : CtrMap :=
  if val = 0 then ctrErase m handle else (handle, val) :: ctrErase m handle

inductive SetResult
  | ok
  | err
deriving DecidableEq

/-- Model of `counter.Store.Set`: roll forward, write, roll back to the old value on
write failure. -/
def counterSet (m : CtrMap) (handle : String) (val : Nat) (writeOk : Bool) :
    CtrMap × SetResult :=
  let oldVal := ctrGet m handle
  let m1 := ctrSetVal m handle val
  if writeOk then (m1, .ok) else (ctrSetVal m1 handle oldVal, .err)

/-- Model of `session.CounterStore.Set`: write the new file first; update the in-memory
map only after the write succeeds. -/
def counterStoreSet (m : CtrMap) (handle : String) (val : Nat) (writeOk : Bool) :
    CtrMap × SetResult :=
  if writeOk then (ctrSetVal m handle val, .ok) else (m, .err)

/-! ## The rate limiter (`rate.Limiter`)

The mutex-protected section of `limiter.Wait` is modelled as a function of
the per-client entry: `waiters` counts blocked waiters, `waitCh` records
whether a release channel is armed (`e.waitCh != nil`). -/

structure RLEntry where
  waiters : Nat
  waitCh : Bool
deriving DecidableEq

inductive WaitOutcome
  | admitted       -- returned immediately without blocking
  | enqueued       -- will block on the wait channel, then be admitted
  | tooManyEvents  -- "too many concurrent events"
deriving DecidableEq

/-- The synchronous decision phase of `limiter.Wait(clientID)` for one client:
the entry is created if absent; a caller finding an armed channel with
`waiters == maxWaiters` gets the error, otherwise it (is enqueued and) arms
the next channel. -/
def limiterWait (maxWaiters : Nat) (e? : Option RLEntry) : Option RLEntry × WaitOutcome :=
  let e := e?.getD { waiters := 0, waitCh := false }
  if e.waitCh then
    if e.waiters = maxWaiters then (some e, .tooManyEvents)
    else (some { waiters := e.waiters + 1, waitCh := true }, .enqueued)
  else (some { waiters := e.waiters, waitCh := true }, .admitted)

/-- The number of blocked waiters in a client's queue, when a queue exists
(an armed release channel). -/
def queuedWaiters (e? : Option RLEntry) : Option Nat :=
  match e? with
  | some e => if e.waitCh then some e.waiters else none
  | none => none

/-! ## The session handler (`session`, `harpd/handler`)

Challenges and authenticator responses are opaque; a registered credential is
modelled by its `Authenticate` function, which returns the new counter value
on success and nothing on failure. Alerts are collected in a list; the
expiration timer is a remaining-duration field, with the success of
`timer.Stop()` (the race against the timer firing) passed in as an oracle. -/

structure SignResponse where
  keyHandle : String
  response : Nat
deriving DecidableEq

abbrev Challenge := Nat

structure Registration where
  authenticate : SignResponse → Challenge → Nat → Option Nat

inductive AlertCode
  | LOGIN
  | UNAUTHENTICATED_SESSION_CLOSED
deriving DecidableEq

inductive SessionError
  | noSession
  | noChallenge
  | authenticationFailed
  | internalError
deriving DecidableEq

/-- The per-session mutable state guarded by the session's lock. -/
structure SessionState where
  authedPaths : List String
  challenge : Option Challenge
  challengePath : String
deriving DecidableEq

/-- Model of the Go map insert into `authedPaths`: set insertion. -/
def insertPath (ps : List String) (p : String) : List String :=
  if p ∈ ps then ps else p :: ps

/-- The first registration whose `Authenticate` succeeds, with its new
counter value (the successful iteration of the `for _, reg := range
s.h.registrations` loop). -/
def firstVerifying (regs : List Registration) (sr : SignResponse) (ch : Challenge)
    (ctr : Nat) : Option Nat :=
  match regs with
  | [] => none
  | reg :: rest =>
    match reg.authenticate sr ch ctr with
    | some n => some n
    | none => firstVerifying rest sr ch ctr

/-- Model of `Session.AuthenticateMFAResponse` (harpd/handler/content.go): no counter
store. Returns the new session state, the alerts emitted, and the result. -/
def authenticateMFAResponse (regs : List Registration) (s : SessionState) (path : String)
    (sr : SignResponse) : SessionState × List AlertCode × Except SessionError Unit :=
  match s.challenge with
  | none => (s, [], .error .noChallenge)
  | some ch =>
    if s.challengePath ≠ path then (s, [], .error .noChallenge)
    else
      match firstVerifying regs sr ch 0 with
      | none => (s, [], .error .authenticationFailed)
      | some _ =>
        let alerts := if s.authedPaths = [] then [AlertCode.LOGIN] else []
        ({ authedPaths := insertPath s.authedPaths path, challenge := none,
           challengePath := "" }, alerts, .ok ())

/-- Model of `Session.AuthenticateU2FResponse` (session/handler.go): on the first
verifying registration, the new counter value is persisted *before* marking
success; a counter-store failure aborts with an internal error. -/
def authenticateU2FResponse (regs : List Registration) (counters : CtrMap) (writeOk : Bool)
    (s : SessionState) (path : String) (sr : SignResponse) :
    SessionState × CtrMap × List AlertCode × Except SessionError Unit :=
  match s.challenge with
  | none => (s, counters, [], .error .noChallenge)
  | some ch =>
    if s.challengePath ≠ path then (s, counters, [], .error .noChallenge)
    else
      match firstVerifying regs sr ch (ctrGet counters sr.keyHandle) with
      | none => (s, counters, [], .error .authenticationFailed)
      | some newCtr =>
        match counterSet counters sr.keyHandle newCtr writeOk with
        | (counters1, .err) => (s, counters1, [], .error .internalError)
        | (counters1, .ok) =>
          let alerts := if s.authedPaths = [] then [AlertCode.LOGIN] else []
          ({ authedPaths := insertPath s.authedPaths path, challenge := none,
             challengePath := "" }, counters1, alerts, .ok ())

/-- A session-level operation in an execution of one session. `ch` is the
challenge freshly generated by `u2f.NewChallenge`. -/
inductive SessionOp
  | generateChallenge (path : String) (ch : Challenge)
  | authenticateResponse (path : String) (sr : SignResponse)

/-- One step of a session execution (content.go variant). -/
def sessionStep (regs : List Registration) (s : SessionState) :
    SessionOp → SessionState × List AlertCode
  | .generateChallenge path ch => ({ s with challenge := some ch, challengePath := path }, [])
  | .authenticateResponse path sr =>
    match authenticateMFAResponse regs s path sr with
    | (s1, alerts, _) => (s1, alerts)

/-- Run a session execution, collecting all alerts in order. -/
def sessionRun (regs : List Registration) (s : SessionState) :
    List SessionOp → SessionState × List AlertCode
  | [] => (s, [])
  | op :: ops =>
    match sessionStep regs s op with
    | (s1, a1) =>
      match sessionRun regs s1 ops with
      | (s2, a2) => (s2, a1 ++ a2)

/-- A freshly created session: no authenticated paths, no challenge. -/
def freshSession : SessionState :=
  { authedPaths := [], challenge := none, challengePath := "" }

/-- How many `LOGIN` alerts a list of alerts contains. -/
def loginCount (as : List AlertCode) : Nat :=
  (as.filter (fun a => decide (a = AlertCode.LOGIN))).length

/-! ## `Handler.GetSession` with the expiration timer -/

/-- A session as seen by `Handler.GetSession`: its authenticated paths and its
expiration timer, modelled by the remaining duration. -/
structure TimedSession where
  authedPaths : List String
  timerRemaining : Nat
deriving DecidableEq

structure HandlerState where
  sessions : List (String × TimedSession)
  sessionDuration : Nat
deriving DecidableEq

def sessLookup : List (String × TimedSession) → String → Option TimedSession
  | [], _ => none
  | (k, v) :: rest, key => if k = key then some v else sessLookup rest key

def sessErase : List (String × TimedSession) → String → List (String × TimedSession)
  | [], _ => []
  | (k, v) :: rest, key => if k = key then sessErase rest key else (k, v) :: sessErase rest key

/-- Model of `Handler.GetSession(sessionID)`. Argument `stopOk` is the return value of
`sess.expirationTimer.Stop()`: false means the timer already fired and
`closeSession` is racing. -/
def getSession (h : HandlerState) (sessionID : String) (stopOk : Bool) :
    HandlerState × Except SessionError TimedSession :=
  match sessLookup h.sessions sessionID with
  | none => (h, .error .noSession)
  | some sess =>
    if sess.authedPaths.length > 0 then
      if stopOk then
        let sess1 : TimedSession := { sess with timerRemaining := h.sessionDuration }
        ({ h with sessions := (sessionID, sess1) :: sessErase h.sessions sessionID }, .ok sess1)
      else (h, .error .noSession)
    else (h, .ok sess)

/-! ## Helper lemmas -/

theorem lookupFile_insert (files : List (String × EntryPB)) (p : String) (e : EntryPB) :
    lookupFile ((p, e) :: eraseFile files p) p = some e := by
  simp [lookupFile]

theorem ctrLookup_erase_self (m : CtrMap) (h : String) : ctrLookup (ctrErase m h) h = none := by
  induction m with
  | nil => rfl
  | cons kv rest ih =>
    obtain ⟨k, v⟩ := kv
    by_cases hk : k = h
    · simp [ctrErase, hk, ih]
    · simp [ctrErase, ctrLookup, hk, ih]

theorem ctrLookup_setVal_self (m : CtrMap) (h : String) (v : Nat) :
    ctrLookup (ctrSetVal m h v) h = if v = 0 then none else some v := by
  by_cases hv : v = 0
  · simp [ctrSetVal, hv, ctrLookup_erase_self]
  · simp [ctrSetVal, hv, ctrLookup]

theorem ctrGet_setVal_self (m : CtrMap) (h : String) (v : Nat) :
    ctrGet (ctrSetVal m h v) h = v := by
  by_cases hv : v = 0 <;> simp [ctrGet, ctrLookup_setVal_self, hv]

theorem firstVerifying_eq_none_of_all (regs : List Registration) (sr : SignResponse)
    (ch : Challenge) (ctr : Nat) (hfail : ∀ reg ∈ regs, reg.authenticate sr ch ctr = none) :
    firstVerifying regs sr ch ctr = none := by
  induction regs with
  | nil => rfl
  | cons reg rest ih =>
    have h1 : reg.authenticate sr ch ctr = none := hfail reg (by simp)
    simp only [firstVerifying, h1]
    exact ih (fun r hr => hfail r (by simp [hr]))

/-! ## Claim theorems -/

/-- C9: for the secretbox crypter under a fixed key, the entry name is not
cryptographically bound: a ciphertext produced for entry name `n1` decrypts
successfully, to the original content, under any other entry name `n2`. -/
theorem secretbox_crypter_name_not_bound (key nonce : Nat) (n1 n2 c : String) :
    crypterDecrypt key n2 (crypterEncrypt key nonce n1 c) = .ok c := by
  simp [crypterDecrypt, crypterEncrypt, secretboxSeal, secretboxOpen]

/-- C3: a successful `Put(name, content)` followed by `Get(name)` on the same
store returns exactly the original content, through the crypter's
Encrypt/Decrypt and the on-disk file. -/
theorem put_then_get_roundtrip (s : Store) (key nonce : Nat) (fs : FS)
    (entry content : String) (fs' : FS)
    (hput : storePut s key nonce fs entry content = .ok fs') :
    storeGet s key fs' entry = .ok content := by
  unfold storePut at hput
  cases hfn : getEntryFilename s entry with
  | error e => rw [hfn] at hput; exact absurd hput (by simp)
  | ok fn =>
    rw [hfn] at hput
    have hfs' : fs' = insertFile (mkdirAll fs (filepathDir fn)) fn
        (crypterEncrypt key nonce entry content) := by
      cases hput; rfl
    subst hfs'
    unfold storeGet
    rw [hfn]
    simp only [insertFile, lookupFile_insert]
    simp [crypterDecrypt, crypterEncrypt, secretboxSeal, secretboxOpen]

/-- Witness for C3 at a concrete store, filesystem, entry and content. -/
theorem put_then_get_roundtrip_witness :
    storeGet (NewStore "/p" ".harp") 0
      ⟨[("/p/e.harp", ⟨.sealed 0 0 "c", 0⟩)], ["/p", "/"]⟩ "/e" = .ok "c" :=
  put_then_get_roundtrip (NewStore "/p" ".harp") 0 0 ⟨[], []⟩ "/e" "c"
    ⟨[("/p/e.harp", ⟨.sealed 0 0 "c", 0⟩)], ["/p", "/"]⟩ (by decide)

/-- C4: both counter stores' `Set(handle, value)` are all-or-nothing: when
`Set` fails, `Get(handle)` still returns its prior value; when `Set`
succeeds with value 0, the handle's entry is deleted and `Get` returns 0. -/
theorem counter_set_all_or_nothing (m : CtrMap) (h : String) (v : Nat) (writeOk : Bool) :
    ((counterSet m h v writeOk).2 = .err →
      ctrGet (counterSet m h v writeOk).1 h = ctrGet m h) ∧
    ((counterSet m h v writeOk).2 = .ok → v = 0 →
      ctrLookup (counterSet m h v writeOk).1 h = none ∧
      ctrGet (counterSet m h v writeOk).1 h = 0) ∧
    ((counterStoreSet m h v writeOk).2 = .err →
      ctrGet (counterStoreSet m h v writeOk).1 h = ctrGet m h) ∧
    ((counterStoreSet m h v writeOk).2 = .ok → v = 0 →
      ctrLookup (counterStoreSet m h v writeOk).1 h = none ∧
      ctrGet (counterStoreSet m h v writeOk).1 h = 0) := by
  cases writeOk with
  | false =>
    refine ⟨fun _ => ?_, fun hok => absurd hok (by simp [counterSet]), fun _ => rfl,
      fun hok => absurd hok (by simp [counterStoreSet])⟩
    simpa [counterSet] using ctrGet_setVal_self (ctrSetVal m h v) h (ctrGet m h)
  | true =>
    refine ⟨fun herr => absurd herr (by simp [counterSet]), fun _ hv => ?_,
      fun herr => absurd herr (by simp [counterStoreSet]), fun _ hv => ?_⟩
    · subst hv
      constructor
      · simpa [counterSet] using ctrLookup_setVal_self m h 0
      · simpa [counterSet] using ctrGet_setVal_self m h 0
    · subst hv
      constructor
      · simpa [counterStoreSet] using ctrLookup_setVal_self m h 0
      · simpa [counterStoreSet] using ctrGet_setVal_self m h 0

/-- Witness for C4: a failing `Set` leaves `Get` at the prior value 2; a
successful `Set` to 0 deletes the entry. -/
theorem counter_set_all_or_nothing_witness :
    ctrGet (counterSet [("k", 2)] "k" 5 false).1 "k" = 2 ∧
    ctrLookup (counterSet [("k", 2)] "k" 0 true).1 "k" = none := by
  constructor
  · have h := (counter_set_all_or_nothing [("k", 2)] "k" 5 false).1 (by decide)
    exact h.trans (by decide)
  · exact ((counter_set_all_or_nothing [("k", 2)] "k" 0 true).2.1 (by decide) rfl).1

/-- C5: `Wait(clientID)` returns the too-many-events error synchronously,
leaving the client's entry untouched (no enqueueing), exactly when the
per-client queue holds `maxWaiters` blocked waiters; callers finding fewer
waiters are enqueued, and callers finding no armed queue are admitted
immediately. -/
theorem limiter_wait_too_many_events (K : Nat) (e? : Option RLEntry) :
    ((limiterWait K e?).2 = .tooManyEvents ↔ queuedWaiters e? = some K) ∧
    ((limiterWait K e?).2 = .tooManyEvents → (limiterWait K e?).1 = e?) ∧
    (∀ n, queuedWaiters e? = some n → n < K → (limiterWait K e?).2 = .enqueued) ∧
    (queuedWaiters e? = none → (limiterWait K e?).2 = .admitted) := by
  cases e? with
  | none => simp [limiterWait, queuedWaiters]
  | some e =>
    cases hch : e.waitCh with
    | false => simp [limiterWait, queuedWaiters, hch]
    | true =>
      by_cases hw : e.waiters = K
      · refine ⟨by simp [limiterWait, queuedWaiters, hch, hw], ?_, ?_, ?_⟩
        · intro _
          simp [limiterWait, hch, hw]
        · intro n hn hlt
          rw [queuedWaiters] at hn
          simp [hch] at hn
          omega
        · intro hn
          simp [queuedWaiters, hch] at hn
      · refine ⟨by simp [limiterWait, queuedWaiters, hch, hw], ?_, ?_, ?_⟩
        · intro habs
          simp [limiterWait, hch, hw] at habs
        · intro n _ _
          simp [limiterWait, hch, hw]
        · intro hn
          simp [queuedWaiters, hch] at hn

/-- Witness for C5: with one blocked waiter and `maxWaiters = 1`, `Wait`
returns the too-many-events error and leaves the entry untouched. -/
theorem limiter_wait_too_many_events_witness :
    (limiterWait 1 (some ⟨1, true⟩)).2 = .tooManyEvents ∧
    (limiterWait 1 (some ⟨1, true⟩)).1 = some ⟨1, true⟩ := by
  have h := limiter_wait_too_many_events 1 (some ⟨1, true⟩)
  have ht := h.1.mpr (by decide)
  exact ⟨ht, h.2.1 ht⟩

/-- C8: when a challenge is outstanding for `path` and no registered
credential verifies the response, both revisions of the second-factor
authentication return the authentication-failed error and leave the session
state — `authed_paths`, `challenge` and `challenge_path` — untouched, so a
retry against the same challenge is possible. -/
theorem auth_failure_preserves_session (regs : List Registration) (s : SessionState)
    (path : String) (sr : SignResponse) (ch : Challenge) (counters : CtrMap) (writeOk : Bool)
    (hch : s.challenge = some ch) (hpath : s.challengePath = path)
    (hfail : ∀ reg ∈ regs, ∀ ctr, reg.authenticate sr ch ctr = none) :
    authenticateMFAResponse regs s path sr = (s, [], .error .authenticationFailed) ∧
    authenticateU2FResponse regs counters writeOk s path sr
      = (s, counters, [], .error .authenticationFailed) := by
  have h0 : firstVerifying regs sr ch 0 = none :=
    firstVerifying_eq_none_of_all _ _ _ _ (fun r hr => hfail r hr 0)
  have h1 : firstVerifying regs sr ch (ctrGet counters sr.keyHandle) = none :=
    firstVerifying_eq_none_of_all _ _ _ _ (fun r hr => hfail r hr _)
  constructor
  · unfold authenticateMFAResponse
    rw [hch]
    simp [hpath, h0]
  · unfold authenticateU2FResponse
    rw [hch]
    simp [hpath, h1]

/-- Witness for C8: a concrete session with an outstanding challenge and a
single never-verifying registration. -/
theorem auth_failure_preserves_session_witness :
    authenticateMFAResponse [⟨fun _ _ _ => none⟩] ⟨[], some 7, "/p/a"⟩ "/p/a" ⟨"kh", 3⟩
      = (⟨[], some 7, "/p/a"⟩, [], .error .authenticationFailed) ∧
    authenticateU2FResponse [⟨fun _ _ _ => none⟩] [("kh", 2)] true ⟨[], some 7, "/p/a"⟩
        "/p/a" ⟨"kh", 3⟩
      = (⟨[], some 7, "/p/a"⟩, [("kh", 2)], [], .error .authenticationFailed) :=
  auth_failure_preserves_session [⟨fun _ _ _ => none⟩] ⟨[], some 7, "/p/a"⟩ "/p/a" ⟨"kh", 3⟩
    7 [("kh", 2)] true rfl rfl
    (by intro reg hreg ctr; rw [List.mem_singleton.mp hreg])

/-- C10: in the counter-store-backed handler, when a credential verifies but
persisting the new counter value fails, `AuthenticateU2FResponse` returns an
error and the session is unchanged: `authed_paths` is not extended, no alert
is emitted, and the challenge and challenge path stay in place. -/
theorem u2f_counter_write_failure_preserves_session (regs : List Registration)
    (counters : CtrMap) (s : SessionState) (path : String) (sr : SignResponse)
    (ch : Challenge) (newCtr : Nat)
    (hch : s.challenge = some ch) (hpath : s.challengePath = path)
    (hver : firstVerifying regs sr ch (ctrGet counters sr.keyHandle) = some newCtr) :
    authenticateU2FResponse regs counters false s path sr
      = (s, (counterSet counters sr.keyHandle newCtr false).1, [], .error .internalError) ∧
    ctrGet (counterSet counters sr.keyHandle newCtr false).1 sr.keyHandle
      = ctrGet counters sr.keyHandle := by
  constructor
  · unfold authenticateU2FResponse
    rw [hch]
    simp [hpath, hver, counterSet]
  · simpa [counterSet] using
      ctrGet_setVal_self (ctrSetVal counters sr.keyHandle newCtr) sr.keyHandle
        (ctrGet counters sr.keyHandle)

/-- Witness for C10: a concrete always-verifying registration with a failing
counter write. -/
theorem u2f_counter_write_failure_preserves_session_witness :
    authenticateU2FResponse [⟨fun _ _ _ => some 5⟩] [("kh", 2)] false ⟨[], some 7, "/p/a"⟩
        "/p/a" ⟨"kh", 3⟩
      = (⟨[], some 7, "/p/a"⟩, (counterSet [("kh", 2)] "kh" 5 false).1, [],
         .error .internalError) ∧
    ctrGet (counterSet [("kh", 2)] "kh" 5 false).1 "kh" = ctrGet [("kh", 2)] "kh" :=
  u2f_counter_write_failure_preserves_session [⟨fun _ _ _ => some 5⟩] [("kh", 2)]
    ⟨[], some 7, "/p/a"⟩ "/p/a" ⟨"kh", 3⟩ 7 5 rfl rfl rfl

/-- C6: `GetSession(id)` returns `NoSession` on an unknown id; returns a
partial session (empty `authed_paths`) without touching its timer; on an
authenticated session it stops the timer — returning `NoSession` when the
stop fails — and otherwise re-arms the timer for one full configured
duration and returns the session. -/
theorem get_session_timer_discipline (h : HandlerState) (id : String) (stopOk : Bool) :
    (sessLookup h.sessions id = none → getSession h id stopOk = (h, .error .noSession)) ∧
    (∀ sess, sessLookup h.sessions id = some sess → sess.authedPaths = [] →
      getSession h id stopOk = (h, .ok sess)) ∧
    (∀ sess, sessLookup h.sessions id = some sess → sess.authedPaths ≠ [] →
      stopOk = false → getSession h id stopOk = (h, .error .noSession)) ∧
    (∀ sess, sessLookup h.sessions id = some sess → sess.authedPaths ≠ [] → stopOk = true →
      getSession h id stopOk =
        ({ h with sessions := (id, { sess with timerRemaining := h.sessionDuration }) ::
            sessErase h.sessions id },
         .ok { sess with timerRemaining := h.sessionDuration })) := by
  refine ⟨fun hn => ?_, fun sess hs he => ?_, fun sess hs hne hstop => ?_,
    fun sess hs hne hstop => ?_⟩
  · unfold getSession
    rw [hn]
  · unfold getSession
    rw [hs]
    simp [he]
  · unfold getSession
    rw [hs]
    have : sess.authedPaths.length > 0 := List.length_pos.mpr hne
    simp [this, hstop]
  · unfold getSession
    rw [hs]
    have : sess.authedPaths.length > 0 := List.length_pos.mpr hne
    simp [this, hstop]

/-- Witness for C6: a handler with one partial and one authenticated session,
exercising the unknown-id, partial, failed-stop and re-arm cases. -/
theorem get_session_timer_discipline_witness :
    getSession ⟨[("p", ⟨[], 3⟩), ("a", ⟨["/x"], 3⟩)], 60⟩ "q" true
      = (⟨[("p", ⟨[], 3⟩), ("a", ⟨["/x"], 3⟩)], 60⟩, .error .noSession) ∧
    getSession ⟨[("p", ⟨[], 3⟩), ("a", ⟨["/x"], 3⟩)], 60⟩ "p" true
      = (⟨[("p", ⟨[], 3⟩), ("a", ⟨["/x"], 3⟩)], 60⟩, .ok ⟨[], 3⟩) ∧
    getSession ⟨[("p", ⟨[], 3⟩), ("a", ⟨["/x"], 3⟩)], 60⟩ "a" false
      = (⟨[("p", ⟨[], 3⟩), ("a", ⟨["/x"], 3⟩)], 60⟩, .error .noSession) ∧
    getSession ⟨[("p", ⟨[], 3⟩), ("a", ⟨["/x"], 3⟩)], 60⟩ "a" true
      = (⟨[("a", ⟨["/x"], 60⟩), ("p", ⟨[], 3⟩)], 60⟩, .ok ⟨["/x"], 60⟩) := by
  refine ⟨(get_session_timer_discipline _ "q" true).1 rfl,
    (get_session_timer_discipline _ "p" true).2.1 ⟨[], 3⟩ rfl rfl,
    (get_session_timer_discipline _ "a" false).2.2.1 ⟨["/x"], 3⟩ rfl (by decide) rfl,
    ?_⟩
  have h := (get_session_timer_discipline ⟨[("p", ⟨[], 3⟩), ("a", ⟨["/x"], 3⟩)], 60⟩ "a"
    true).2.2.2 ⟨["/x"], 3⟩ rfl (by decide) rfl
  rw [h]
  decide

theorem insertPath_ne_nil (ps : List String) (p : String) : insertPath ps p ≠ [] := by
  unfold insertPath
  by_cases hp : p ∈ ps
  · simp only [hp, if_true]
    intro habs
    rw [habs] at hp
    exact absurd hp (List.not_mem_nil p)
  · simp [hp]

theorem loginCount_append (a b : List AlertCode) :
    loginCount (a ++ b) = loginCount a + loginCount b := by
  simp [loginCount, List.filter_append]

/-- The emptiness indicator of `authed_paths`, and how one session step moves
it together with the `LOGIN` alerts the step emits. -/
theorem sessionStep_loginCount (regs : List Registration) (s : SessionState) (op : SessionOp) :
    loginCount (sessionStep regs s op).2 + (if s.authedPaths = [] then 0 else 1)
      = (if (sessionStep regs s op).1.authedPaths = [] then 0 else 1) := by
  cases op with
  | generateChallenge path ch => simp [sessionStep, loginCount]
  | authenticateResponse path sr =>
    show loginCount (authenticateMFAResponse regs s path sr).2.1 + _
      = (if (authenticateMFAResponse regs s path sr).1.authedPaths = [] then 0 else 1)
    unfold authenticateMFAResponse
    cases hch : s.challenge with
    | none => simp [loginCount]
    | some ch =>
      by_cases hpath : s.challengePath ≠ path
      · simp [hpath, loginCount]
      · cases hver : firstVerifying regs sr ch 0 with
        | none => simp [hpath, hver, loginCount]
        | some n =>
          by_cases he : s.authedPaths = []
          · simp [hpath, hver, he, loginCount, insertPath_ne_nil]
          · simp [hpath, hver, he, loginCount, insertPath_ne_nil]

theorem sessionRun_loginCount (regs : List Registration) (ops : List SessionOp)
    (s : SessionState) :
    loginCount (sessionRun regs s ops).2 + (if s.authedPaths = [] then 0 else 1)
      = (if (sessionRun regs s ops).1.authedPaths = [] then 0 else 1) := by
  induction ops generalizing s with
  | nil => simp [sessionRun, loginCount]
  | cons op ops ih =>
    unfold sessionRun
    rcases hstep : sessionStep regs s op with ⟨s1, a1⟩
    have hones := sessionStep_loginCount regs s op
    rw [hstep] at hones
    rcases hrun : sessionRun regs s1 ops with ⟨s2, a2⟩
    have hrest := ih s1
    rw [hrun] at hrest
    dsimp only at hones hrest
    simp only [hstep, hrun, loginCount_append]
    omega

/-- C7: the `LOGIN` alert is emitted by `AuthenticateMFAResponse` exactly when
it succeeds while `authed_paths` is empty, and over any execution of a
session started fresh, `LOGIN` is emitted exactly once if the session ever
becomes authenticated and never otherwise. -/
theorem login_alert_exactly_on_first_auth (regs : List Registration) (ops : List SessionOp) :
    (∀ s path sr, AlertCode.LOGIN ∈ (authenticateMFAResponse regs s path sr).2.1 ↔
      ((authenticateMFAResponse regs s path sr).2.2 = .ok () ∧ s.authedPaths = [])) ∧
    loginCount (sessionRun regs freshSession ops).2
      = (if (sessionRun regs freshSession ops).1.authedPaths = [] then 0 else 1) := by
  constructor
  · intro s path sr
    unfold authenticateMFAResponse
    cases hch : s.challenge with
    | none => simp
    | some ch =>
      by_cases hpath : s.challengePath ≠ path
      · simp [hpath]
      · cases hver : firstVerifying regs sr ch 0 with
        | none => simp [hpath, hver]
        | some n =>
          by_cases he : s.authedPaths = [] <;> simp [hpath, hver, he]
  · have h := sessionRun_loginCount regs ops freshSession
    simpa [freshSession] using h

/-- Witness for C7: a concrete two-authentication execution emits exactly one
`LOGIN` alert. -/
theorem login_alert_exactly_on_first_auth_witness :
    loginCount (sessionRun [⟨fun _ _ _ => some 5⟩] freshSession
      [.generateChallenge "/p/a" 7, .authenticateResponse "/p/a" ⟨"kh", 3⟩,
       .generateChallenge "/p/b" 8, .authenticateResponse "/p/b" ⟨"kh", 4⟩]).2 = 1 := by
  have h := (login_alert_exactly_on_first_auth [⟨fun _ _ _ => some 5⟩]
    [.generateChallenge "/p/a" 7, .authenticateResponse "/p/a" ⟨"kh", 3⟩,
     .generateChallenge "/p/b" 8, .authenticateResponse "/p/b" ⟨"kh", 4⟩]).2
  rw [h]
  decide

/-- C1 (counterexample): the claim fails as stated. For the store rooted at
`/tmp/A`, the name `../Ax/f` contains a `..` component and resolves to
`/tmp/Ax/f.harp`, which lies outside `baseDir` — yet `Put` succeeds (the
resolved path extends `baseDir` as a *string*, so the `strings.HasPrefix`
check passes), writing a file outside the store. -/
theorem path_escape_not_rejected :
    ".." ∈ nameComps "../Ax/f" ∧
    underDir "/tmp/A" (filepathJoin "/tmp/A" ("../Ax/f" ++ ".harp")) = false ∧
    (NewStore "/tmp/A" ".harp").baseDir = "/tmp/A" ∧
    storePut (NewStore "/tmp/A" ".harp") 0 0 ⟨[], ["/tmp/A", "/"]⟩ "../Ax/f" "c"
      = .ok ⟨[("/tmp/Ax/f.harp", ⟨.sealed 0 0 "c", 0⟩)],
             ["/tmp/Ax", "/tmp", "/", "/tmp/A", "/"]⟩ := by
  decide

/-- C1 (amended): every operation rejects the empty name, and `Put`, `Get`
and `Delete` all fail with the invalid-entry error whenever the resolved
path does not extend `baseDir` as a string — which covers `..` traversal
except when the escape target merely extends `baseDir`'s final path
component. -/
theorem entry_filename_check_rejects (s : Store) (key nonce : Nat) (fs : FS)
    (entry content : String) :
    (entry = "" →
      storeGet s key fs entry = .error .missingEntry ∧
      storePut s key nonce fs entry content = .error .missingEntry ∧
      storeDelete s fs entry = .error .missingEntry) ∧
    (entry ≠ "" →
      hasPre s.baseDir (filepathJoin s.baseDir (entry ++ s.extension)) = false →
      storeGet s key fs entry = .error .invalidEntry ∧
      storePut s key nonce fs entry content = .error .invalidEntry ∧
      storeDelete s fs entry = .error .invalidEntry) := by
  constructor
  · intro he
    have hfn : getEntryFilename s entry = .error .missingEntry := by
      simp [getEntryFilename, he]
    exact ⟨by simp [storeGet, hfn], by simp [storePut, hfn], by simp [storeDelete, hfn]⟩
  · intro he hnp
    have hfn : getEntryFilename s entry = .error .invalidEntry := by
      simp [getEntryFilename, he, hnp]
    exact ⟨by simp [storeGet, hfn], by simp [storePut, hfn], by simp [storeDelete, hfn]⟩

/-- Witness for the amended C1, at the spec's own concrete example: store `B`
rooted at `/tmp/A/inner`, name `../x` (resolving to `/tmp/A/x.harp`, which
does not extend `/tmp/A/inner`): `Get`, `Put` and `Delete` all fail with the
invalid-entry error, and the empty name is rejected. -/
theorem entry_filename_check_rejects_witness :
    storeGet (NewStore "/tmp/A/inner" ".harp") 0 ⟨[], ["/tmp/A/inner", "/tmp/A", "/"]⟩ "../x"
      = .error .invalidEntry ∧
    storePut (NewStore "/tmp/A/inner" ".harp") 0 0 ⟨[], ["/tmp/A/inner", "/tmp/A", "/"]⟩
      "../x" "c" = .error .invalidEntry ∧
    storeDelete (NewStore "/tmp/A/inner" ".harp") ⟨[], ["/tmp/A/inner", "/tmp/A", "/"]⟩ "../x"
      = .error .invalidEntry ∧
    storeGet (NewStore "/tmp/A/inner" ".harp") 0 ⟨[], ["/tmp/A/inner", "/tmp/A", "/"]⟩ ""
      = .error .missingEntry := by
  have h := entry_filename_check_rejects (NewStore "/tmp/A/inner" ".harp") 0 0
    ⟨[], ["/tmp/A/inner", "/tmp/A", "/"]⟩ "../x" "c"
  have h2 := h.2 (by decide) (by decide)
  have h3 := entry_filename_check_rejects (NewStore "/tmp/A/inner" ".harp") 0 0
    ⟨[], ["/tmp/A/inner", "/tmp/A", "/"]⟩ "" "c"
  exact ⟨h2.1, h2.2.1, h2.2.2, (h3.1 rfl).1⟩

/-! ### Directory-cleanup lemmas for `store.Delete` -/

/-- The cleanup loop never removes a directory whose path does not extend
`baseDir` as a string. -/
theorem cleanupDirs_preserves_nonpre (baseDir : String) :
    ∀ (fuel : Nat) (dir : String) (fs fs' : FS), cleanupDirs baseDir fuel dir fs = .ok fs' →
      ∀ d ∈ fs.dirs, hasPre baseDir d = false → d ∈ fs'.dirs := by
  intro fuel
  induction fuel with
  | zero =>
    intro dir fs fs' h
    cases h
  | succ n ih =>
    intro dir fs fs' h d hd hnp
    rw [cleanupDirs] at h
    split at h
    · rename_i hpre
      split at h
      · split at h
        · refine ih (filepathDir dir) (eraseDir fs dir) fs' h d ?_ hnp
          simp only [eraseDir, List.mem_filter, decide_eq_true_eq]
          refine ⟨hd, fun hEq => ?_⟩
          rw [hEq, hpre] at hnp
          cases hnp
        · cases h
          exact hd
      · cases h
    · cases h
      exact hd

/-- Structure of a walk chain: the parent of any chain element is either a
later chain element or fails the loop guard. -/
theorem isWalkChain_dir_mem (baseDir : String) :
    ∀ (cs : List String) (d : String), isWalkChain baseDir d cs = true →
      ∀ x ∈ cs, filepathDir x ∈ cs ∨ hasPre baseDir (filepathDir x) = false := by
  intro cs
  induction cs with
  | nil =>
    intro d _ x hx
    cases hx
  | cons c cs ih =>
    intro d hw x hx
    rw [isWalkChain] at hw
    simp only [Bool.and_eq_true, decide_eq_true_eq] at hw
    obtain ⟨⟨hcd, _⟩, hrest⟩ := hw
    subst hcd
    rcases List.mem_cons.mp hx with hx | hx
    · subst hx
      cases cs with
      | nil =>
        rw [isWalkChain, Bool.not_eq_true'] at hrest
        exact Or.inr hrest
      | cons c' cs' =>
        rw [isWalkChain] at hrest
        simp only [Bool.and_eq_true, decide_eq_true_eq] at hrest
        exact Or.inl (List.mem_cons_of_mem _ (hrest.1.1 ▸ List.mem_cons_self _ _))
    · rcases ih (filepathDir c) hrest x hx with hin | hnp
      · exact Or.inl (List.mem_cons_of_mem _ hin)
      · exact Or.inr hnp

theorem filter_ne_of_pre (baseDir d0 : String) (hpre : hasPre baseDir d0 = true)
    (l : List String) :
    (l.filter (fun d2 => decide (d2 ≠ d0))).filter (fun d => !(hasPre baseDir d))
      = l.filter (fun d => !(hasPre baseDir d)) := by
  induction l with
  | nil => rfl
  | cons a l ih =>
    rw [List.filter_cons]
    by_cases ha : a = d0
    · have h1 : decide (a ≠ d0) = false := by simp [ha]
      rw [h1]
      simp only [Bool.false_eq_true, if_false]
      rw [ih, List.filter_cons]
      have h2 : (!hasPre baseDir a) = false := by rw [ha, hpre]; rfl
      rw [h2]
      simp
    · have h1 : decide (a ≠ d0) = true := by simp [ha]
      rw [h1]
      rw [if_pos rfl, List.filter_cons, List.filter_cons]
      cases ho : (!hasPre baseDir a) with
      | false =>
        simp only [Bool.false_eq_true, if_false]
        exact ih
      | true =>
        rw [if_pos rfl, if_pos rfl, ih]

/-- Completeness of the cleanup loop when the deleted file was the last one:
if the directories satisfying the loop guard are exactly the walk chain from
the starting directory, the loop removes all of them and leaves exactly the
directories that do not extend `baseDir`. -/
theorem cleanupDirs_chain (baseDir : String) :
    ∀ (chain : List String) (fuel : Nat) (d0 : String) (fs : FS),
      isWalkChain baseDir d0 chain = true →
      chain.Nodup →
      (∀ d ∈ fs.dirs, hasPre baseDir d = true → d ∈ chain) →
      (∀ d ∈ fs.dirs, filepathDir d ∈ chain → d ∈ chain) →
      (∀ d ∈ chain, d ∈ fs.dirs) →
      fs.files = [] →
      chain.length < fuel →
      cleanupDirs baseDir fuel d0 fs
        = .ok ⟨[], fs.dirs.filter (fun d => !(hasPre baseDir d))⟩ := by
  intro chain
  induction chain with
  | nil =>
    intro fuel d0 fs hw _ h3 _ _ h6 hfuel
    rw [isWalkChain, Bool.not_eq_true'] at hw
    cases fuel with
    | zero => omega
    | succ n =>
      rw [cleanupDirs]
      rw [hw]
      simp only [Bool.false_eq_true, if_false]
      have hdirs : fs.dirs.filter (fun d => !(hasPre baseDir d)) = fs.dirs := by
        apply List.filter_eq_self.mpr
        intro a ha
        rw [Bool.not_eq_eq_eq_not, Bool.not_true]
        by_cases hp : hasPre baseDir a = true
        · exact absurd (h3 a ha hp) (List.not_mem_nil a)
        · exact Bool.not_eq_true _ ▸ (Bool.eq_false_iff.mpr hp)
      rw [hdirs]
      cases fs with
      | mk files dirs =>
        simp only at h6
        rw [h6]
  | cons c cs ih =>
    intro fuel d0 fs hw hnd h3 h4 h5 h6 hfuel
    rw [isWalkChain] at hw
    simp only [Bool.and_eq_true, decide_eq_true_eq] at hw
    obtain ⟨⟨hcd, hpre⟩, hrest⟩ := hw
    subst hcd
    cases fuel with
    | zero => omega
    | succ n =>
      have hmem : c ∈ fs.dirs := h5 c (List.mem_cons_self _ _)
      have hd0cs : c ∉ cs := (List.nodup_cons.mp hnd).1
      have hempty : dirIsEmpty fs c = true := by
        unfold dirIsEmpty
        rw [h6]
        simp only [List.all_nil, Bool.true_and]
        rw [List.all_eq_true]
        intro d2 hd2
        by_cases he : d2 = c
        · simp [he]
        · simp only [Bool.or_eq_true, decide_eq_true_eq]
          right
          intro hdir
          have hd2chain : d2 ∈ c :: cs :=
            h4 d2 hd2 (by rw [hdir]; exact List.mem_cons_self _ _)
          rcases List.mem_cons.mp hd2chain with h | h
          · exact he h
          · rcases isWalkChain_dir_mem baseDir cs (filepathDir c) hrest d2 h with hin | hnp
            · rw [hdir] at hin
              exact hd0cs hin
            · rw [hdir, hpre] at hnp
              cases hnp
      rw [cleanupDirs, if_pos hpre, if_pos hmem, if_pos hempty]
      have hstep := ih n (filepathDir c) (eraseDir fs c) hrest (List.nodup_cons.mp hnd).2
        ?_ ?_ ?_ ?_ ?_
      · rw [hstep]
        simp only [eraseDir]
        rw [filter_ne_of_pre baseDir c hpre]
      · intro d hd hp
        simp only [eraseDir, List.mem_filter, decide_eq_true_eq] at hd
        rcases List.mem_cons.mp (h3 d hd.1 hp) with h | h
        · exact absurd h hd.2
        · exact h
      · intro d hd hdir
        simp only [eraseDir, List.mem_filter, decide_eq_true_eq] at hd
        rcases List.mem_cons.mp (h4 d hd.1 (List.mem_cons_of_mem _ hdir)) with h | h
        · exact absurd h hd.2
        · exact h
      · intro d hd
        simp only [eraseDir, List.mem_filter, decide_eq_true_eq]
        refine ⟨h5 d (List.mem_cons_of_mem _ hd), fun hEq => ?_⟩
        rw [hEq] at hd
        exact hd0cs hd
      · exact h6
      · simp only [List.length_cons] at hfuel
        omega

/-- C2 (counterexample): the claim that `baseDir` itself is never removed
fails. With the store rooted at `/b` holding the single entry `/e`,
`Delete("/e")` succeeds and removes the now-empty `baseDir` directory `/b`
itself (the cleanup loop guard `strings.HasPrefix(entryDir, baseDir)` also
holds at `entryDir == baseDir`). -/
theorem delete_removes_basedir :
    (NewStore "/b" ".harp").baseDir = "/b" ∧
    storeDelete (NewStore "/b" ".harp")
        ⟨[("/b/e.harp", ⟨.sealed 0 0 "x", 0⟩)], ["/b", "/"]⟩ "/e"
      = .ok ⟨[], ["/"]⟩ ∧
    "/b" ∉ (FS.mk [] ["/"]).dirs := by
  decide

/-- C2 (amended): after a successful `Delete`, the walk upward removes each
directory that has become empty while its path extends `baseDir` as a string
— including `baseDir` itself when it becomes empty — and never removes a
directory whose path does not extend `baseDir`. In particular, when the
deleted entry was the store's last one and the directories extending
`baseDir` form exactly the upward walk chain from the entry's parent, all of
them (with `baseDir` on the chain) are removed and only the others remain. -/
theorem delete_cleanup_amended :
    (∀ (s : Store) (fs : FS) (entry : String) (fs' : FS),
      storeDelete s fs entry = .ok fs' →
      ∀ d ∈ fs.dirs, hasPre s.baseDir d = false → d ∈ fs'.dirs) ∧
    (∀ (s : Store) (fs : FS) (entry fn : String) (ct : EntryPB) (chain : List String),
      getEntryFilename s entry = .ok fn →
      lookupFile fs.files fn = some ct →
      eraseFile fs.files fn = [] →
      isWalkChain s.baseDir (filepathDir fn) chain = true →
      chain.Nodup →
      (∀ d ∈ fs.dirs, hasPre s.baseDir d = true → d ∈ chain) →
      (∀ d ∈ fs.dirs, filepathDir d ∈ chain → d ∈ chain) →
      (∀ d ∈ chain, d ∈ fs.dirs) →
      chain.length < (filepathDir fn).length + 3 →
      storeDelete s fs entry
        = .ok ⟨[], fs.dirs.filter (fun d => !(hasPre s.baseDir d))⟩) := by
  constructor
  · intro s fs entry fs' h d hd hnp
    unfold storeDelete at h
    cases hfn : getEntryFilename s entry with
    | error e =>
      simp only [hfn] at h
      cases h
    | ok fn =>
      simp only [hfn] at h
      cases hlk : lookupFile fs.files fn with
      | none =>
        simp only [hlk] at h
        cases h
      | some ct =>
        simp only [hlk] at h
        exact cleanupDirs_preserves_nonpre s.baseDir _ _ _ _ h d hd hnp
  · intro s fs entry fn ct chain hfn hlk herase hw hnd h3 h4 h5 hfuel
    unfold storeDelete
    simp only [hfn, hlk]
    exact cleanupDirs_chain s.baseDir chain _ _ _ hw hnd h3 h4 h5 herase hfuel

/-- Witness for the amended C2: deleting the last entry `/c/e` of the store
rooted at `/b` removes the whole chain `/b/c`, `/b` — including `baseDir` —
and leaves `/` alone. -/
theorem delete_cleanup_amended_witness :
    storeDelete (NewStore "/b" ".harp")
        ⟨[("/b/c/e.harp", ⟨.sealed 0 0 "x", 0⟩)], ["/b/c", "/b", "/"]⟩ "/c/e"
      = .ok ⟨[], ["/"]⟩ := by
  have h := delete_cleanup_amended.2 (NewStore "/b" ".harp")
    ⟨[("/b/c/e.harp", ⟨.sealed 0 0 "x", 0⟩)], ["/b/c", "/b", "/"]⟩ "/c/e" "/b/c/e.harp"
    ⟨.sealed 0 0 "x", 0⟩ ["/b/c", "/b"]
    (by decide) (by decide) (by decide) (by decide) (by decide) (by decide) (by decide)
    (by decide) (by decide)
  rw [h]
  decide

end Harpocrates
